import Mathlib

/-!
# Formal model of a crypto backtesting harness

Shallow embedding of a small single-threaded backtesting program:
a market (point-in-time price lookup over pre-loaded records), a
fee-taking exchange API, trading agents (a sleeping agent, a
wait-for-increase agent, a slope-estimation agent) and the simulation
clock loop.  Money amounts and prices are modelled as exact rationals,
timestamps as integers (seconds).
-/

namespace Crypto

/-- The exchange API.  `CryptoAPI.__init__` stores
`imposition_perc = 1 - imposition_rate`, the fraction of value kept
after the fee. -/
structure CryptoAPI where
  imposition_perc : ℚ
  deriving DecidableEq

/-- Build an API from the configured `imposition_rate`
(`CryptoAPI.__init__`). -/
def CryptoAPI.ofRate (imposition_rate : ℚ) : CryptoAPI :=
  ⟨1 - imposition_rate⟩

/-- `CryptoAPI.buy_crypto_from_api`: the fee is taken on the money,
then the remainder is converted at the current price:
`money *= imposition_perc; crypto_qte = money / price`.
The price of the requested crypto at the simulation's current date is
passed as the argument `price`. -/
def CryptoAPI.buy_crypto_from_api (api : CryptoAPI) (money : ℚ) (price : ℚ) : ℚ :=
  money * api.imposition_perc / price

/-- `CryptoAPI.sell_crypto_to_api`: the quantity is converted at the
current price, then the fee is taken on the proceeds:
`money = crypto_qte * price; money *= imposition_perc`. -/
def CryptoAPI.sell_crypto_to_api (api : CryptoAPI) (crypto_qte : ℚ) (price : ℚ) : ℚ :=
  crypto_qte * price * api.imposition_perc

/-- One row of a crypto dataframe: a timestamp (seconds) and a price. -/
structure PriceRecord where
  date : ℤ
  value : ℚ
  deriving DecidableEq

/-- Result of `CryptoMarket.get_price`.  The Python function either
returns the `value` field of the first row whose date matches exactly,
or — when the row selection is empty and `.iloc[0]` raises
`IndexError` — catches the exception, prints a message and returns the
Python boolean `False`. -/
inductive GetPriceResult where
  | price (value : ℚ)
  | pyFalse
  deriving DecidableEq

/-- `CryptoMarket.get_price` for one crypto's dataframe `df`:
`row = df[df["date"] == date].iloc[0]; return row["value"]`, with the
`IndexError` handler returning `False` when no row matches. -/
def CryptoMarket.get_price (df : List PriceRecord) (date : ℤ) : GetPriceResult :=
  match (df.filter (fun r => r.date = date)).head? with
  | some row => GetPriceResult.price row.value
  | none => GetPriceResult.pyFalse

/-- Errors raised by `CryptoAgent.buy` / `CryptoAgent.sell` via
`sys.exit()` (the whole run aborts; no state is produced). -/
inductive TradeError where
  | insufficientFunds
  | insufficientHoldings
  deriving DecidableEq

/-- The mutable state of a `CryptoAgent`: its cash
(`available_money`), its per-crypto holdings (`available_crypto_l`, a
dict keyed by the names in `crypto_name_l`), and `earned_money`. -/
@[ext]
structure AgentState where
  available_money : ℚ
  available_crypto_l : String → ℚ
  earned_money : ℚ
  crypto_name_l : List String

/-- `CryptoAgent.__init__`: cash set to `init_money`, every holding
quantity zero (`dict(zip(crypto_name_l, [0]*len(crypto_name_l)))`),
`earned_money = 0`. -/
def CryptoAgent.init (crypto_name_l : List String) (init_money : ℚ) : AgentState :=
  { available_money := init_money
    available_crypto_l := fun _ => 0
    earned_money := 0
    crypto_name_l := crypto_name_l }

/-- `CryptoAgent.buy`: if `money <= self.available_money` the agent
buys through the API (cash decreases by `money`, the holding of
`crypto_name` increases by the quantity returned by the API),
otherwise the run aborts with `sys.exit()` (insufficient funds).
`price` gives the current market price of each crypto name. -/
def CryptoAgent.buy (api : CryptoAPI) (price : String → ℚ) (s : AgentState)
    (money : ℚ) (crypto_name : String) : Except TradeError AgentState :=
  if money ≤ s.available_money then
    let crypto_qte := api.buy_crypto_from_api money (price crypto_name)
    Except.ok { s with
      available_money := s.available_money - money
      available_crypto_l := fun n =>
        if n = crypto_name then s.available_crypto_l n + crypto_qte
        else s.available_crypto_l n }
  else
    Except.error TradeError.insufficientFunds

/-- `CryptoAgent.sell`: if `crypto_qte <= self.available_crypto_l[crypto_name]`
the agent sells through the API (the holding decreases by `crypto_qte`,
cash increases by the money returned by the API), otherwise the run
aborts with `sys.exit()` (insufficient holdings). -/
def CryptoAgent.sell (api : CryptoAPI) (price : String → ℚ) (s : AgentState)
    (crypto_qte : ℚ) (crypto_name : String) : Except TradeError AgentState :=
  if crypto_qte ≤ s.available_crypto_l crypto_name then
    let money := api.sell_crypto_to_api crypto_qte (price crypto_name)
    Except.ok { s with
      available_crypto_l := fun n =>
        if n = crypto_name then s.available_crypto_l n - crypto_qte
        else s.available_crypto_l n
      available_money := s.available_money + money }
  else
    Except.error TradeError.insufficientHoldings

/-- The initial-allocation loop of `CryptoAgent.link_to_simulation`:
for each crypto name in order the agent buys
`self.available_money * self.init_repartition[crypto_name]` of it —
note that `available_money` is the remaining (already decremented)
cash, not the initial cash. -/
def CryptoAgent.link_to_simulation (api : CryptoAPI) (price : String → ℚ)
    (init_repartition : String → ℚ) (s : AgentState) : Except TradeError AgentState :=
  s.crypto_name_l.foldlM
    (fun st name => CryptoAgent.buy api price st (st.available_money * init_repartition name) name)
    s

/-- `SleepingAgent.step` does nothing (`pass`). -/
def SleepingAgent.step (s : AgentState) : Except TradeError AgentState :=
  Except.ok s

/-- State of `WaitIncreaseAgent`: the shared agent state plus the
crypto it trades, its sell threshold and the last buy price. -/
@[ext]
structure WaitIncreaseState where
  base : AgentState
  name_of_crypto : String
  sell_th : ℚ
  last_buy_price : ℚ

/-- `WaitIncreaseAgent.load_init_info`: records the current market
price of the traded crypto as `last_buy_price`. -/
def WaitIncreaseAgent.load_init_info (current_price : ℚ) (s : WaitIncreaseState) :
    WaitIncreaseState :=
  { s with last_buy_price := current_price }

/-- `WaitIncreaseAgent.step`: with
`perc_diff = (current_price - last_buy_price) / last_buy_price`, when
`perc_diff > sell_th` the agent sells its whole holding of the crypto,
immediately buys again with all its money and records the new
`last_buy_price`; otherwise it does nothing. -/
def WaitIncreaseAgent.step (api : CryptoAPI) (current_price : ℚ)
    (s : WaitIncreaseState) : Except TradeError WaitIncreaseState :=
  let perc_diff := (current_price - s.last_buy_price) / s.last_buy_price
  if s.sell_th < perc_diff then do
    let b1 ← CryptoAgent.sell api (fun _ => current_price) s.base
      (s.base.available_crypto_l s.name_of_crypto) s.name_of_crypto
    let b2 ← CryptoAgent.buy api (fun _ => current_price) b1
      b1.available_money s.name_of_crypto
    Except.ok { s with base := b2, last_buy_price := current_price }
  else
    Except.ok s

/-- The two modes of `SlopeEstimationAgent` (`"has_to_sell"` /
`"has_to_buy"`). -/
inductive SlopeMode where
  | has_to_sell
  | has_to_buy
  deriving DecidableEq

/-- State of `SlopeEstimationAgent`: the shared agent state plus the
traded crypto, the thresholds, the last transaction price, the
`enough_data_gathered` flag, the price memory (element 0 oldest), the
mode and the memory size. -/
@[ext]
structure SlopeAgentState where
  base : AgentState
  name_of_crypto : String
  sell_th : ℚ
  buy_th : ℚ
  slope_th : ℚ
  last_transaction_price : ℚ
  enough_data_gathered : Bool
  memory : List ℚ
  mode : SlopeMode
  memory_size : ℕ

/-- `SlopeEstimationAgent.__init__`: empty memory,
`enough_data_gathered = False`, mode `"has_to_sell"`.
`last_transaction_price` is Python `None` until `load_init_info`
runs; it is modelled by the placeholder value 0, never read before
`load_init_info` overwrites it. -/
def SlopeEstimationAgent.init (base : AgentState) (name_of_crypto : String)
    (sell_th buy_th slope_th : ℚ) (memory_size : ℕ) : SlopeAgentState :=
  { base := base
    name_of_crypto := name_of_crypto
    sell_th := sell_th
    buy_th := buy_th
    slope_th := slope_th
    last_transaction_price := 0
    enough_data_gathered := false
    memory := []
    mode := SlopeMode.has_to_sell
    memory_size := memory_size }

/-- `SlopeEstimationAgent.load_init_info`: records the current market
price as `last_transaction_price` and appends it to the memory. -/
def SlopeEstimationAgent.load_init_info (current_price : ℚ) (s : SlopeAgentState) :
    SlopeAgentState :=
  { s with
    last_transaction_price := current_price
    memory := s.memory ++ [current_price] }

/-- `SlopeEstimationAgent.step`.  While `enough_data_gathered` is
false the agent only appends the current price and sets the flag once
`len(memory) >= memory_size`.  Afterwards it slides the window
(`popleft` then `append`), computes
`perc_diff = (current_price - last_transaction_price) / last_transaction_price`
and the regression-slope angle, and trades according to its mode.
`angle_lr` — in the source `360*atan(linregress slope)/(2*pi)`, a
transcendental function of the window — is passed as an input so the
decision logic stays executable; the theorems about this function
quantify over it. -/
def SlopeEstimationAgent.step (api : CryptoAPI) (current_price angle_lr : ℚ)
    (s : SlopeAgentState) : Except TradeError SlopeAgentState :=
  if s.enough_data_gathered = false then
    let memory := s.memory ++ [current_price]
    Except.ok { s with
      memory := memory
      enough_data_gathered := decide (s.memory_size ≤ memory.length) }
  else
    let memory := s.memory.tail ++ [current_price]
    let perc_diff := (current_price - s.last_transaction_price) / s.last_transaction_price
    match s.mode with
    | SlopeMode.has_to_sell =>
      if s.sell_th < perc_diff ∧ angle_lr < -s.slope_th then do
        let b ← CryptoAgent.sell api (fun _ => current_price) s.base
          (s.base.available_crypto_l s.name_of_crypto) s.name_of_crypto
        Except.ok { s with
          base := b
          memory := memory
          last_transaction_price := current_price
          mode := SlopeMode.has_to_buy }
      else
        Except.ok { s with memory := memory }
    | SlopeMode.has_to_buy =>
      if perc_diff < s.buy_th ∧ s.slope_th < angle_lr then do
        let b ← CryptoAgent.buy api (fun _ => current_price) s.base
          s.base.available_money s.name_of_crypto
        Except.ok { s with
          base := b
          memory := memory
          last_transaction_price := current_price
          mode := SlopeMode.has_to_sell }
      else
        Except.ok { s with memory := memory }

/-- A sequence of ticks of `SlopeEstimationAgent.step`: each element
of `inputs` is the pair (current price, regression angle) of one
tick. -/
def SlopeEstimationAgent.run (api : CryptoAPI) (inputs : List (ℚ × ℚ))
    (s : SlopeAgentState) : Except TradeError SlopeAgentState :=
  inputs.foldlM (fun st pa => SlopeEstimationAgent.step api pa.1 pa.2 st) s

/-- The clock loop of `CryptoSimulation.simulate`:
`while current_date + timedelta(seconds=frequency - 1) <= end_date: step()`,
where `step` advances `current_date` by `frequency` seconds and runs
every agent once.  Returns the list of dates at which agent steps are
executed.  The guard `0 < frequency` makes the recursion terminate;
every simulation uses a positive frequency (default 60). -/
def CryptoSimulation.tickDates (frequency end_date current_date : ℤ) : List ℤ :=
  if _h : 0 < frequency ∧ current_date + (frequency - 1) ≤ end_date then
    (current_date + frequency) ::
      CryptoSimulation.tickDates frequency end_date (current_date + frequency)
  else
    []
termination_by (end_date + 1 - current_date).toNat
decreasing_by simp_wf; omega

/-- The method and attribute names defined by class `CryptoAgent`
(its `def`s and the `self.x = ...` assignments of its `__init__`). -/
def CryptoAgent.definedNames : List String :=
  ["__init__", "link_to_simulation", "step", "buy", "sell", "load_init_info",
   "name", "available_crypto_l", "available_money", "earned_money",
   "init_repartition", "simulation"]

/-- Names defined by class `SleepingAgent` (inherits `CryptoAgent`,
overrides `__init__`, `step`, `load_init_info`, adds no attribute). -/
def SleepingAgent.definedNames : List String :=
  CryptoAgent.definedNames ++ ["__init__", "step", "load_init_info"]

/-- Names defined by class `WaitIncreaseAgent` (inherits
`CryptoAgent`; its `__init__` adds `name_of_crypto`, `sell_th`,
`last_buy_price`). -/
def WaitIncreaseAgent.definedNames : List String :=
  CryptoAgent.definedNames ++
    ["__init__", "step", "load_init_info", "name_of_crypto", "sell_th",
     "last_buy_price"]

/-- Names defined by class `SlopeEstimationAgent` (inherits
`CryptoAgent`; its `__init__` adds the thresholds and the memory
fields). -/
def SlopeEstimationAgent.definedNames : List String :=
  CryptoAgent.definedNames ++
    ["__init__", "step", "load_init_info", "name_of_crypto", "sell_th",
     "buy_th", "slope_th", "last_transaction_price", "enough_data_gathered",
     "memory", "mode", "memory_size"]

/-- Python attribute lookup on an object whose class defines exactly
the names in `defined`: returns the attribute or raises
`AttributeError`. -/
def pyGetattr (defined : List String) (attr : String) : Except String Unit :=
  if attr ∈ defined then Except.ok ()
  else Except.error ("AttributeError: " ++ attr)

/-- The attribute accesses performed by `CryptoSimulation.add_agent`
on the agent being registered: it reads `agent.name`, calls
`agent.link_to_simulation(self)` and then calls
`agent.add_state(self.current_date, "start", "-", "-")`. -/
def CryptoSimulation.add_agent_lookups (defined : List String) : Except String Unit := do
  let _ ← pyGetattr defined "name"
  let _ ← pyGetattr defined "link_to_simulation"
  pyGetattr defined "add_state"

/-!
## Theorems
-/

/-- C1: for every `fee_rate` in `[0,1)`, every money amount `m ≥ 0` and
every positive price `p`, selling back the quantity obtained from buying
(`sell_crypto_to_api(buy_crypto_from_api(m, a), a)` at a fixed price)
returns exactly `m * (1 - fee_rate)^2`, which is at most `m`. -/
theorem claim_C1_roundtrip (fee_rate m p : ℚ)
    (hfee0 : 0 ≤ fee_rate) (hfee1 : fee_rate < 1) (hm : 0 ≤ m) (hp : 0 < p) :
    (CryptoAPI.ofRate fee_rate).sell_crypto_to_api
        ((CryptoAPI.ofRate fee_rate).buy_crypto_from_api m p) p
      = m * (1 - fee_rate) ^ 2 ∧
    (CryptoAPI.ofRate fee_rate).sell_crypto_to_api
        ((CryptoAPI.ofRate fee_rate).buy_crypto_from_api m p) p ≤ m := by
  have hp0 : p ≠ 0 := ne_of_gt hp
  have heq : (CryptoAPI.ofRate fee_rate).sell_crypto_to_api
      ((CryptoAPI.ofRate fee_rate).buy_crypto_from_api m p) p
      = m * (1 - fee_rate) ^ 2 := by
    simp only [CryptoAPI.ofRate, CryptoAPI.buy_crypto_from_api,
      CryptoAPI.sell_crypto_to_api]
    field_simp
    ring
  refine ⟨heq, ?_⟩
  rw [heq]
  have hkey : 0 ≤ m * (fee_rate * (2 - fee_rate)) :=
    mul_nonneg hm (mul_nonneg hfee0 (by linarith))
  nlinarith [hkey]

/-- C1 witness: the round-trip identity at `fee_rate = 1/100`,
`m = 100`, `p = 50000`. -/
theorem claim_C1_roundtrip_witness :
    (CryptoAPI.ofRate (1/100)).sell_crypto_to_api
        ((CryptoAPI.ofRate (1/100)).buy_crypto_from_api 100 50000) 50000
      = 100 * (1 - 1/100) ^ 2 ∧
    (CryptoAPI.ofRate (1/100)).sell_crypto_to_api
        ((CryptoAPI.ofRate (1/100)).buy_crypto_from_api 100 50000) 50000 ≤ 100 :=
  claim_C1_roundtrip (1/100) 100 50000 (by norm_num) (by norm_num)
    (by norm_num) (by norm_num)

/-- C2 counterexample: on a market whose only record for the asset is
at timestamp 0, requesting the price at timestamp 1 does NOT abort the
run — `get_price` catches the `IndexError` and returns the Python
boolean `False`, a non-price fallback value, refuting the claim that
the lookup fails fatally and never returns a fallback. -/
theorem claim_C2_counterexample :
    CryptoMarket.get_price [PriceRecord.mk 0 5] 1 = GetPriceResult.pyFalse ∧
    GetPriceResult.pyFalse ≠ GetPriceResult.price 5 := by
  exact ⟨rfl, by simp⟩

/-- C2 amended: when the market holds no record matching the exact
timestamp for the asset, `get_price` returns the Python boolean
`False` as a fallback (the run does not abort at this point), and any
price it does return is the value of a record at exactly the requested
timestamp — it never interpolates between samples. -/
theorem claim_C2_amended (df : List PriceRecord) (date : ℤ) :
    ((∀ r ∈ df, r.date ≠ date) →
      CryptoMarket.get_price df date = GetPriceResult.pyFalse) ∧
    (∀ v : ℚ, CryptoMarket.get_price df date = GetPriceResult.price v →
      ∃ r ∈ df, r.date = date ∧ r.value = v) := by
  constructor
  · intro hnone
    unfold CryptoMarket.get_price
    have hfil : df.filter (fun r => decide (r.date = date)) = [] := by
      rw [List.filter_eq_nil_iff]
      intro r hr
      simpa using hnone r hr
    rw [hfil]
    rfl
  · intro v hv
    unfold CryptoMarket.get_price at hv
    rcases hhead : (df.filter (fun r => decide (r.date = date))).head? with _ | ⟨row⟩
    · rw [hhead] at hv
      exact absurd hv (by simp)
    · rw [hhead] at hv
      have hrow : row ∈ df.filter (fun r => decide (r.date = date)) :=
        List.mem_of_mem_head? hhead
      have hmem := List.mem_of_mem_filter hrow
      have hdate : row.date = date := by
        have := List.of_mem_filter hrow
        simpa using this
      refine ⟨row, hmem, hdate, ?_⟩
      simpa using hv

/-- C2 amended witness: on a one-record market, the lookup at a
non-matching timestamp returns `False`, and the lookup at the matching
timestamp returns the value of that exact record. -/
theorem claim_C2_amended_witness :
    CryptoMarket.get_price [PriceRecord.mk 0 5] 2 = GetPriceResult.pyFalse ∧
    ∃ r ∈ [PriceRecord.mk 0 5], r.date = (0:ℤ) ∧ r.value = (5:ℚ) :=
  ⟨(claim_C2_amended [PriceRecord.mk 0 5] 2).1 (by decide),
   (claim_C2_amended [PriceRecord.mk 0 5] 0).2 5 rfl⟩

/-- C4: registering any of the repository agent variants
(`SleepingAgent`, `WaitIncreaseAgent`, `SlopeEstimationAgent`) via
`CryptoSimulation.add_agent` always fails: `add_agent` calls
`agent.add_state`, a method defined by no class in the repository, so
the lookup raises `AttributeError`; likewise `state_hist` and
`init_money`, read during evaluation, are assigned by no class. -/
theorem claim_C4_add_agent_always_fails :
    CryptoSimulation.add_agent_lookups SleepingAgent.definedNames
        = Except.error "AttributeError: add_state" ∧
    CryptoSimulation.add_agent_lookups WaitIncreaseAgent.definedNames
        = Except.error "AttributeError: add_state" ∧
    CryptoSimulation.add_agent_lookups SlopeEstimationAgent.definedNames
        = Except.error "AttributeError: add_state" ∧
    "state_hist" ∉ SleepingAgent.definedNames ∧
    "state_hist" ∉ WaitIncreaseAgent.definedNames ∧
    "state_hist" ∉ SlopeEstimationAgent.definedNames ∧
    "init_money" ∉ SleepingAgent.definedNames ∧
    "init_money" ∉ WaitIncreaseAgent.definedNames ∧
    "init_money" ∉ SlopeEstimationAgent.definedNames := by
  refine ⟨rfl, rfl, rfl, ?_, ?_, ?_, ?_, ?_, ?_⟩ <;>
    simp [SleepingAgent.definedNames, WaitIncreaseAgent.definedNames,
      SlopeEstimationAgent.definedNames, CryptoAgent.definedNames]

/-- C5 counterexample: with tick interval 60 and `end_date = init + 59`
seconds, the loop condition `current + (frequency - 1) <= end_date`
holds at the first iteration, so a tick executes (advancing the clock
to `init + 60`), although `current + interval` (60) exceeds
`end_date` (59) — refuting the claim that a tick executes only when
`current_timestamp + interval` does not exceed `end_date`. -/
theorem claim_C5_counterexample :
    CryptoSimulation.tickDates 60 59 0 = [60] ∧ ¬ ((0:ℤ) + 60 ≤ 59) := by
  constructor
  · rw [CryptoSimulation.tickDates]
    norm_num
    rw [CryptoSimulation.tickDates]
    norm_num
  · decide

/-- Closed form of the simulation clock loop: with a positive
frequency `f`, starting date `c` and end date `e`, when `k` is the
(unique) number with `c + k*f ≤ e + 1 < c + (k+1)*f`, exactly `k`
ticks execute, at dates `c + f, c + 2f, ..., c + kf`. -/
lemma tickDates_closed_form (f e : ℤ) (hf : 0 < f) :
    ∀ (k : ℕ) (c : ℤ), c + (k : ℤ) * f ≤ e + 1 → e + 1 < c + ((k : ℤ) + 1) * f →
    CryptoSimulation.tickDates f e c
      = (List.range k).map (fun (i : ℕ) => c + ((i : ℤ) + 1) * f) := by
  intro k
  induction k with
  | zero =>
    intro c h1 h2
    rw [CryptoSimulation.tickDates, dif_neg]
    · simp
    · rintro ⟨-, hle⟩
      push_cast at h2
      omega
  | succ n ih =>
    intro c h1 h2
    have hnf : (0:ℤ) ≤ (n : ℤ) * f := mul_nonneg (by positivity) hf.le
    have hguard : c + (f - 1) ≤ e := by
      have hexp : ((n : ℤ) + 1 + 1) * f = (n : ℤ) * f + f + f := by ring
      push_cast at h1
      nlinarith [h1]
    rw [CryptoSimulation.tickDates, dif_pos ⟨hf, hguard⟩]
    have h1' : (c + f) + (n : ℤ) * f ≤ e + 1 := by push_cast at h1; linarith [h1]
    have h2' : e + 1 < (c + f) + ((n : ℤ) + 1) * f := by push_cast at h2; linarith [h2]
    rw [ih (c + f) h1' h2']
    rw [List.range_succ_eq_map, List.map_cons, List.map_map]
    refine congrArg₂ _ (by push_cast; ring) ?_
    refine List.map_congr_left ?_
    intro i _
    simp only [Function.comp_apply]
    push_cast
    ring

/-- C5 amended: the loop guard is
`current + (interval - 1) <= end_date`, so a tick executes exactly
when `current_timestamp + interval` does not exceed `end_date + 1`
(one second beyond the claimed bound): with `c + k*f ≤ e + 1 <
c + (k+1)*f`, exactly `k` ticks execute, at `c + f, ..., c + k*f`.
The concrete scenario of the claim is unaffected: with `init = 0`,
`end = 125`, `interval = 60` exactly two ticks execute, at 60 and 120,
and no third tick. -/
theorem claim_C5_amended :
    (∀ (f e c : ℤ) (k : ℕ), 0 < f →
      c + (k : ℤ) * f ≤ e + 1 → e + 1 < c + ((k : ℤ) + 1) * f →
      CryptoSimulation.tickDates f e c
        = (List.range k).map (fun (i : ℕ) => c + ((i : ℤ) + 1) * f)) ∧
    CryptoSimulation.tickDates 60 125 0 = [60, 120] := by
  constructor
  · intro f e c k hf h1 h2
    exact tickDates_closed_form f e hf k c h1 h2
  · have h := tickDates_closed_form 60 125 (by norm_num) 2 0 (by norm_num) (by norm_num)
    rw [h]
    decide

/-- C5 amended witness: the closed form applied at the concrete
scenario `frequency = 60`, `end = 125`, `init = 0`, `k = 2`. -/
theorem claim_C5_amended_witness :
    CryptoSimulation.tickDates 60 125 0
      = (List.range 2).map (fun (i : ℕ) => (0:ℤ) + ((i : ℤ) + 1) * 60) :=
  claim_C5_amended.1 60 125 0 2 (by norm_num) (by norm_num) (by norm_num)

/-- C6: a buy request strictly exceeding the available cash aborts the
run (`InsufficientFunds`), a sell request strictly exceeding the
holding of the asset aborts the run (`InsufficientHoldings`) — in both
cases no state is produced (no clamping) — and when the requested
amount does not exceed the balance the trade executes, updating cash
and holdings. -/
theorem claim_C6_trade_guards (api : CryptoAPI) (price : String → ℚ)
    (s : AgentState) (money crypto_qte : ℚ) (crypto_name : String) :
    (s.available_money < money →
      CryptoAgent.buy api price s money crypto_name
        = Except.error TradeError.insufficientFunds) ∧
    (money ≤ s.available_money →
      CryptoAgent.buy api price s money crypto_name
        = Except.ok { s with
            available_money := s.available_money - money
            available_crypto_l := fun n =>
              if n = crypto_name then
                s.available_crypto_l n + api.buy_crypto_from_api money (price crypto_name)
              else s.available_crypto_l n }) ∧
    (s.available_crypto_l crypto_name < crypto_qte →
      CryptoAgent.sell api price s crypto_qte crypto_name
        = Except.error TradeError.insufficientHoldings) ∧
    (crypto_qte ≤ s.available_crypto_l crypto_name →
      CryptoAgent.sell api price s crypto_qte crypto_name
        = Except.ok { s with
            available_crypto_l := fun n =>
              if n = crypto_name then s.available_crypto_l n - crypto_qte
              else s.available_crypto_l n
            available_money := s.available_money
              + api.sell_crypto_to_api crypto_qte (price crypto_name) }) := by
  refine ⟨fun h => ?_, fun h => ?_, fun h => ?_, fun h => ?_⟩
  · rw [CryptoAgent.buy, if_neg (not_le.mpr h)]
  · rw [CryptoAgent.buy, if_pos h]
  · rw [CryptoAgent.sell, if_neg (not_le.mpr h)]
  · rw [CryptoAgent.sell, if_pos h]

/-- C6 witness: an agent with 100 cash and 0 BTC cannot buy for 200
(fatal `InsufficientFunds`) nor sell 1 BTC (fatal
`InsufficientHoldings`), and a buy for 40 executes, leaving 60 cash
and adding the bought quantity. -/
theorem claim_C6_trade_guards_witness :
    CryptoAgent.buy (CryptoAPI.ofRate (1/100)) (fun _ => 50000)
        (CryptoAgent.init ["BTC"] 100) 200 "BTC"
      = Except.error TradeError.insufficientFunds ∧
    CryptoAgent.sell (CryptoAPI.ofRate (1/100)) (fun _ => 50000)
        (CryptoAgent.init ["BTC"] 100) 1 "BTC"
      = Except.error TradeError.insufficientHoldings ∧
    CryptoAgent.buy (CryptoAPI.ofRate (1/100)) (fun _ => 50000)
        (CryptoAgent.init ["BTC"] 100) 40 "BTC"
      = Except.ok { available_money := 100 - 40
                    available_crypto_l := fun n =>
                      if n = "BTC" then
                        0 + (CryptoAPI.ofRate (1/100)).buy_crypto_from_api 40 50000
                      else 0
                    earned_money := 0
                    crypto_name_l := ["BTC"] } :=
  ⟨(claim_C6_trade_guards (CryptoAPI.ofRate (1/100)) (fun _ => 50000)
      (CryptoAgent.init ["BTC"] 100) 200 1 "BTC").1
      (by norm_num [CryptoAgent.init]),
   (claim_C6_trade_guards (CryptoAPI.ofRate (1/100)) (fun _ => 50000)
      (CryptoAgent.init ["BTC"] 100) 200 1 "BTC").2.2.1
      (by norm_num [CryptoAgent.init]),
   (claim_C6_trade_guards (CryptoAPI.ofRate (1/100)) (fun _ => 50000)
      (CryptoAgent.init ["BTC"] 100) 40 1 "BTC").2.1
      (by norm_num [CryptoAgent.init])⟩

/-- Bind of a successful `Except` computation. -/
lemma except_bind_ok {e a b : Type} (x : a) (f : a -> Except e b) :
    (Except.ok x : Except e a) >>= f = f x := rfl

/-- Selling the whole holding of an asset always passes the sell
guard. -/
lemma sell_all_spec (api : CryptoAPI) (price : String → ℚ) (s : AgentState)
    (name : String) :
    CryptoAgent.sell api price s (s.available_crypto_l name) name
      = Except.ok { s with
          available_crypto_l := fun n =>
            if n = name then s.available_crypto_l n - s.available_crypto_l name
            else s.available_crypto_l n
          available_money := s.available_money
            + api.sell_crypto_to_api (s.available_crypto_l name) (price name) } := by
  rw [CryptoAgent.sell, if_pos le_rfl]

/-- Buying with the whole cash always passes the buy guard. -/
lemma buy_all_spec (api : CryptoAPI) (price : String → ℚ) (s : AgentState)
    (name : String) :
    CryptoAgent.buy api price s s.available_money name
      = Except.ok { s with
          available_money := s.available_money - s.available_money
          available_crypto_l := fun n =>
            if n = name then
              s.available_crypto_l n + api.buy_crypto_from_api s.available_money (price name)
            else s.available_crypto_l n } := by
  rw [CryptoAgent.buy, if_pos le_rfl]

/-- C10: on a tick where the percent difference to the reference price
exceeds `sell_th`, `WaitIncreaseAgent` sells its entire holding of the
asset and immediately buys with all resulting cash in the same tick
(cash ends at 0, the holding of the asset becomes the quantity bought
back from the full proceeds of the sale), and the reference price is
set to the current price; on a tick where the percent difference does
not exceed `sell_th`, no trade occurs and the state — the reference
price included — is unchanged. -/
theorem claim_C10_wait_increase_step (api : CryptoAPI) (current_price : ℚ)
    (w : WaitIncreaseState) :
    (w.sell_th < (current_price - w.last_buy_price) / w.last_buy_price →
      WaitIncreaseAgent.step api current_price w
        = Except.ok { w with
            last_buy_price := current_price
            base := { w.base with
              available_money := 0
              available_crypto_l := fun n =>
                if n = w.name_of_crypto then
                  api.buy_crypto_from_api
                    (w.base.available_money
                      + api.sell_crypto_to_api
                          (w.base.available_crypto_l w.name_of_crypto) current_price)
                    current_price
                else w.base.available_crypto_l n } }) ∧
    (¬ w.sell_th < (current_price - w.last_buy_price) / w.last_buy_price →
      WaitIncreaseAgent.step api current_price w = Except.ok w) := by
  constructor
  · intro hc
    simp only [WaitIncreaseAgent.step, if_pos hc, sell_all_spec, except_bind_ok,
      buy_all_spec]
    refine congrArg Except.ok ?_
    refine WaitIncreaseState.ext ?_ rfl rfl rfl
    refine AgentState.ext ?_ ?_ rfl rfl
    · simp
    · funext n
      by_cases hn : n = w.name_of_crypto
      · simp [hn]
      · simp [hn]
  · intro hc
    simp only [WaitIncreaseAgent.step, if_neg hc]

/-- The allocation fold of `link_to_simulation`: with fractions in
`[0,1]` and non-negative starting cash every buy passes its guard, and
the remaining cash is the starting cash times the product of
`1 - fraction` over the names processed so far. -/
lemma link_fold_spec (api : CryptoAPI) (price f : String → ℚ)
    (hf : ∀ n, 0 ≤ f n ∧ f n ≤ 1) :
    ∀ (names : List String) (s : AgentState), 0 ≤ s.available_money →
    ∃ s', (names.foldlM (fun st name =>
            CryptoAgent.buy api price st (st.available_money * f name) name) s)
          = Except.ok s' ∧
      s'.available_money = s.available_money * (names.map (fun n => 1 - f n)).prod ∧
      s'.earned_money = s.earned_money ∧
      s'.crypto_name_l = s.crypto_name_l := by
  intro names
  induction names with
  | nil =>
    intro s hs
    exact ⟨s, rfl, by simp, rfl, rfl⟩
  | cons name rest ih =>
    intro s hs
    obtain ⟨hf0, hf1⟩ := hf name
    have hguard : s.available_money * f name ≤ s.available_money := by
      nlinarith
    have hbuy : CryptoAgent.buy api price s (s.available_money * f name) name
        = Except.ok { s with
            available_money := s.available_money - s.available_money * f name
            available_crypto_l := fun n =>
              if n = name then
                s.available_crypto_l n
                  + api.buy_crypto_from_api (s.available_money * f name) (price name)
              else s.available_crypto_l n } := by
      rw [CryptoAgent.buy, if_pos hguard]
    have hnn : (0:ℚ) ≤ s.available_money - s.available_money * f name := by
      nlinarith
    obtain ⟨s', hrun, hm, he, hc⟩ := ih { s with
      available_money := s.available_money - s.available_money * f name
      available_crypto_l := fun n =>
        if n = name then
          s.available_crypto_l n
            + api.buy_crypto_from_api (s.available_money * f name) (price name)
        else s.available_crypto_l n } hnn
    refine ⟨s', ?_, ?_, he, hc⟩
    · rw [List.foldlM_cons, hbuy, except_bind_ok, hrun]
    · rw [hm]
      simp only [List.map_cons, List.prod_cons]
      ring

/-- C3 counterexample: with initial cash 100, two assets both with
repartition fraction 1/2, zero fee and unit price, initialization
spends 50 on the first asset but only 25 (not 50) on the second —
`link_to_simulation` multiplies each fraction by the REMAINING cash —
leaving final cash 25 instead of the claimed
`C * (1 - (f_A + f_B)) = 0`. -/
theorem claim_C3_counterexample :
    (CryptoAgent.link_to_simulation (CryptoAPI.ofRate 0) (fun _ => 1)
        (fun _ => 1/2) (CryptoAgent.init ["A", "B"] 100)).toOption.map
      (fun s => s.available_money) = some 25 ∧
    (25:ℚ) ≠ 100 * (1 - (1/2 + 1/2)) := by
  constructor
  · simp [CryptoAgent.link_to_simulation, CryptoAgent.init, CryptoAgent.buy,
      CryptoAPI.ofRate, CryptoAPI.buy_crypto_from_api, List.foldlM,
      Except.toOption, Bind.bind, Except.bind, Pure.pure, Except.pure]
    norm_num
  · norm_num

/-- C3 amended: initialization buys the assets in order, spending on
each asset the REMAINING cash times its repartition fraction (so asset
`i` receives `C * f_i * prod (1 - f_j) for j < i`), leaving cash
`C * prod (1 - f_i)`; these coincide with the claim exactly when at
most one fraction is non-zero.  The single-asset scenario of the claim
holds as stated: with `initial_cash = 100`, repartition
`{BTC: 1.0}`, `fee_rate = 0.01` and BTC price 50000, post-initialize
holdings are `100 * 0.99 / 50000 = 0.00198` BTC and cash is 0. -/
theorem claim_C3_amended :
    (∀ (api : CryptoAPI) (price f : String → ℚ) (names : List String) (C : ℚ),
      0 ≤ C → (∀ n, 0 ≤ f n ∧ f n ≤ 1) →
      (CryptoAgent.link_to_simulation api price f
          (CryptoAgent.init names C)).toOption.map (fun s => s.available_money)
        = some (C * (names.map (fun n => 1 - f n)).prod)) ∧
    (CryptoAgent.link_to_simulation (CryptoAPI.ofRate (1/100)) (fun _ => 50000)
        (fun _ => 1) (CryptoAgent.init ["BTC"] 100)).toOption.map
      (fun s => (s.available_money, s.available_crypto_l "BTC"))
      = some (0, 0.00198) := by
  constructor
  · intro api price f names C hC hf
    obtain ⟨s', hrun, hm, -, -⟩ :=
      link_fold_spec api price f hf names (CryptoAgent.init names C)
        (by simpa [CryptoAgent.init] using hC)
    rw [CryptoAgent.link_to_simulation]
    have hnames : (CryptoAgent.init names C).crypto_name_l = names := rfl
    rw [hnames, hrun]
    simp [Except.toOption, hm, CryptoAgent.init]
  · simp [CryptoAgent.link_to_simulation, CryptoAgent.init, CryptoAgent.buy,
      CryptoAPI.ofRate, CryptoAPI.buy_crypto_from_api, List.foldlM,
      Except.toOption, Bind.bind, Except.bind, Pure.pure, Except.pure]
    norm_num

/-- C3 amended witness: the general allocation formula applied at the
single-asset scenario (cash 100, fraction 1, fee 1/100, price
50000). -/
theorem claim_C3_amended_witness :
    (CryptoAgent.link_to_simulation (CryptoAPI.ofRate (1/100)) (fun _ => 50000)
        (fun _ => 1) (CryptoAgent.init ["BTC"] 100)).toOption.map
      (fun s => s.available_money)
      = some (100 * ((["BTC"].map (fun n => 1 - (fun _ : String => (1:ℚ)) n)).prod)) :=
  claim_C3_amended.1 (CryptoAPI.ofRate (1/100)) (fun _ => 50000)
    (fun _ : String => (1:ℚ)) ["BTC"] 100 (by norm_num) (fun n => by norm_num)

/-- The balance invariant of an agent: non-negative cash and
non-negative holding of every crypto. -/
def AgentState.Invariant (s : AgentState) : Prop :=
  0 ≤ s.available_money ∧ ∀ n, 0 ≤ s.available_crypto_l n

/-- A successful buy of a non-negative money amount preserves the
balance invariant (fee fraction and prices non-negative). -/
lemma buy_invariant (api : CryptoAPI) (price : String → ℚ) (s s' : AgentState)
    (money : ℚ) (name : String)
    (himp : 0 ≤ api.imposition_perc) (hp : ∀ n, 0 ≤ price n) (hmoney : 0 ≤ money)
    (hs : s.Invariant)
    (h : CryptoAgent.buy api price s money name = Except.ok s') : s'.Invariant := by
  rw [CryptoAgent.buy] at h
  by_cases hg : money ≤ s.available_money
  · rw [if_pos hg] at h
    injection h with h
    subst h
    refine ⟨by simpa using sub_nonneg.mpr hg, fun n => ?_⟩
    dsimp only
    by_cases hn : n = name
    · rw [if_pos hn]
      have hq : 0 ≤ api.buy_crypto_from_api money (price name) :=
        div_nonneg (mul_nonneg hmoney himp) (hp name)
      have := hs.2 n
      linarith
    · rw [if_neg hn]
      exact hs.2 n
  · rw [if_neg hg] at h
    exact absurd h (by simp)

/-- A successful sell of a non-negative quantity preserves the balance
invariant (fee fraction and prices non-negative). -/
lemma sell_invariant (api : CryptoAPI) (price : String → ℚ) (s s' : AgentState)
    (crypto_qte : ℚ) (name : String)
    (himp : 0 ≤ api.imposition_perc) (hp : ∀ n, 0 ≤ price n) (hq : 0 ≤ crypto_qte)
    (hs : s.Invariant)
    (h : CryptoAgent.sell api price s crypto_qte name = Except.ok s') : s'.Invariant := by
  rw [CryptoAgent.sell] at h
  by_cases hg : crypto_qte ≤ s.available_crypto_l name
  · rw [if_pos hg] at h
    injection h with h
    subst h
    constructor
    · have hmon : 0 ≤ api.sell_crypto_to_api crypto_qte (price name) :=
        mul_nonneg (mul_nonneg hq (hp name)) himp
      have := hs.1
      dsimp only
      linarith
    · intro n
      dsimp only
      by_cases hn : n = name
      · rw [if_pos hn]
        subst hn
        linarith
      · rw [if_neg hn]
        exact hs.2 n
  · rw [if_neg hg] at h
    exact absurd h (by simp)

/-- The allocation fold of `link_to_simulation` preserves the balance
invariant when every repartition fraction is non-negative. -/
lemma link_fold_invariant (api : CryptoAPI) (price f : String → ℚ)
    (himp : 0 ≤ api.imposition_perc) (hp : ∀ n, 0 ≤ price n) (hf : ∀ n, 0 ≤ f n) :
    ∀ (names : List String) (s s' : AgentState), s.Invariant →
      (names.foldlM (fun st name =>
          CryptoAgent.buy api price st (st.available_money * f name) name) s)
        = Except.ok s' → s'.Invariant := by
  intro names
  induction names with
  | nil =>
    intro s s' hs h
    rw [List.foldlM_nil] at h
    injection h with h
    subst h
    exact hs
  | cons name rest ih =>
    intro s s' hs h
    rw [List.foldlM_cons] at h
    rcases hbuy : CryptoAgent.buy api price s (s.available_money * f name) name with e | s1
    · rw [hbuy] at h
      exact absurd h (by simp [Bind.bind, Except.bind])
    · rw [hbuy, except_bind_ok] at h
      have hs1 : s1.Invariant :=
        buy_invariant api price s s1 (s.available_money * f name) name himp hp
          (mul_nonneg hs.1 (hf name)) hs hbuy
      exact ih s1 s' hs1 h

/-- C7: starting from a state satisfying the balance invariant
(cash ≥ 0, all holdings ≥ 0), every operation of a run that does not
abort preserves it — the initial allocation of `link_to_simulation`
and one tick of each agent variant (`SleepingAgent`,
`WaitIncreaseAgent`, `SlopeEstimationAgent`) — given non-negative fee
fraction, prices and repartition fractions. -/
theorem claim_C7_nonneg_invariant (api : CryptoAPI) (price f : String → ℚ)
    (current_price angle_lr : ℚ)
    (himp : 0 ≤ api.imposition_perc) (hp : ∀ n, 0 ≤ price n)
    (hf : ∀ n, 0 ≤ f n) (hcp : 0 ≤ current_price) :
    (∀ s s', s.Invariant →
      CryptoAgent.link_to_simulation api price f s = Except.ok s' → s'.Invariant) ∧
    (∀ s s', s.Invariant → SleepingAgent.step s = Except.ok s' → s'.Invariant) ∧
    (∀ w w', w.base.Invariant →
      WaitIncreaseAgent.step api current_price w = Except.ok w' →
      w'.base.Invariant) ∧
    (∀ sl sl', sl.base.Invariant →
      SlopeEstimationAgent.step api current_price angle_lr sl = Except.ok sl' →
      sl'.base.Invariant) := by
  have hcp' : ∀ n : String, 0 ≤ (fun _ => current_price) n := fun _ => hcp
  refine ⟨?_, ?_, ?_, ?_⟩
  · intro s s' hs h
    rw [CryptoAgent.link_to_simulation] at h
    exact link_fold_invariant api price f himp hp hf s.crypto_name_l s s' hs h
  · intro s s' hs h
    rw [SleepingAgent.step] at h
    injection h with h
    subst h
    exact hs
  · intro w w' hw h
    rw [WaitIncreaseAgent.step] at h
    by_cases hc : w.sell_th < (current_price - w.last_buy_price) / w.last_buy_price
    · rw [if_pos hc, sell_all_spec, except_bind_ok, buy_all_spec, except_bind_ok] at h
      injection h with h
      subst h
      dsimp only
      have hb1 : AgentState.Invariant { w.base with
          available_crypto_l := fun n =>
            if n = w.name_of_crypto then
              w.base.available_crypto_l n - w.base.available_crypto_l w.name_of_crypto
            else w.base.available_crypto_l n
          available_money := w.base.available_money
            + api.sell_crypto_to_api (w.base.available_crypto_l w.name_of_crypto)
                current_price } :=
        sell_invariant api (fun _ => current_price) w.base _
          (w.base.available_crypto_l w.name_of_crypto) w.name_of_crypto himp hcp'
          (hw.2 w.name_of_crypto) hw (sell_all_spec _ _ _ _)
      exact buy_invariant api (fun _ => current_price) _ _ _ w.name_of_crypto himp hcp'
        hb1.1 hb1 (buy_all_spec _ _ _ _)
    · rw [if_neg hc] at h
      injection h with h
      subst h
      exact hw
  · intro sl sl' hsl h
    rw [SlopeEstimationAgent.step] at h
    by_cases he : sl.enough_data_gathered = false
    · rw [if_pos he] at h
      injection h with h
      subst h
      exact hsl
    · rw [if_neg he] at h
      rcases hmode : sl.mode with _ | _
      · rw [hmode] at h
        dsimp only at h
        by_cases hc : sl.sell_th
            < (current_price - sl.last_transaction_price) / sl.last_transaction_price
            ∧ angle_lr < -sl.slope_th
        · rw [if_pos hc, sell_all_spec, except_bind_ok] at h
          injection h with h
          subst h
          dsimp only
          exact sell_invariant api (fun _ => current_price) sl.base _
            (sl.base.available_crypto_l sl.name_of_crypto) sl.name_of_crypto himp hcp'
            (hsl.2 sl.name_of_crypto) hsl (sell_all_spec _ _ _ _)
        · rw [if_neg hc] at h
          injection h with h
          subst h
          exact hsl
      · rw [hmode] at h
        dsimp only at h
        by_cases hc : (current_price - sl.last_transaction_price)
            / sl.last_transaction_price < sl.buy_th ∧ sl.slope_th < angle_lr
        · rw [if_pos hc, buy_all_spec, except_bind_ok] at h
          injection h with h
          subst h
          dsimp only
          exact buy_invariant api (fun _ => current_price) sl.base _
            sl.base.available_money sl.name_of_crypto himp hcp'
            hsl.1 hsl (buy_all_spec _ _ _ _)
        · rw [if_neg hc] at h
          injection h with h
          subst h
          exact hsl

/-- C7 witness: a `SleepingAgent` tick from the freshly initialized
state (cash 100, no holdings) preserves the balance invariant. -/
theorem claim_C7_nonneg_invariant_witness :
    AgentState.Invariant (CryptoAgent.init ["BTC"] 100) :=
  (claim_C7_nonneg_invariant (CryptoAPI.ofRate (1/100)) (fun _ => 50000)
      (fun _ => 1) 50000 0 (by norm_num [CryptoAPI.ofRate])
      (fun n => by norm_num) (fun n => by norm_num) (by norm_num)).2.1
    (CryptoAgent.init ["BTC"] 100) (CryptoAgent.init ["BTC"] 100)
    ⟨by norm_num [CryptoAgent.init], fun n => by norm_num [CryptoAgent.init]⟩ rfl

/-- The last `n` elements of a list (the whole list when it is shorter
than `n`). -/
def takeLast (n : ℕ) (l : List ℚ) : List ℚ :=
  l.drop (l.length - n)

/-- Taking the last `l.length` elements returns the list itself. -/
lemma takeLast_of_length (l : List ℚ) : takeLast l.length l = l := by
  simp [takeLast]

/-- Sliding a full window: dropping the oldest element and appending a
new one yields the last `N` elements of the extended observation
list. -/
lemma takeLast_append_singleton (N : ℕ) (hN : 1 ≤ N) (obs : List ℚ) (p : ℚ)
    (hlen : (takeLast N obs).length = N) :
    (takeLast N obs).tail ++ [p] = takeLast N (obs ++ [p]) := by
  have hobs : N ≤ obs.length := by
    rw [takeLast, List.length_drop] at hlen
    omega
  rw [takeLast, takeLast, List.length_append]
  simp only [List.length_cons, List.length_nil]
  rw [List.drop_append_of_le_length (by omega), List.tail_drop]
  congr 2
  omega

/-- One tick of `SlopeEstimationAgent.step` always succeeds; while the
window is not yet full it only appends the current price (no trade, no
mode change, no transaction-price update), and once it is full it
slides the window by one. -/
lemma slope_step_spec (api : CryptoAPI) (p a : ℚ) (s : SlopeAgentState) :
    ∃ s1, SlopeEstimationAgent.step api p a s = Except.ok s1 ∧
      s1.memory_size = s.memory_size ∧
      (s.enough_data_gathered = false →
        s1.memory = s.memory ++ [p] ∧
        s1.enough_data_gathered = decide (s.memory_size ≤ s.memory.length + 1) ∧
        s1.base = s.base ∧ s1.mode = s.mode ∧
        s1.last_transaction_price = s.last_transaction_price) ∧
      (s.enough_data_gathered = true →
        s1.memory = s.memory.tail ++ [p] ∧ s1.enough_data_gathered = true) := by
  rw [SlopeEstimationAgent.step]
  by_cases he : s.enough_data_gathered = false
  · rw [if_pos he]
    refine ⟨_, rfl, rfl, fun _ => ⟨rfl, by simp, rfl, rfl, rfl⟩,
      fun ht => by simp [he] at ht⟩
  · have he' : s.enough_data_gathered = true := by
      cases h : s.enough_data_gathered
      · exact absurd h he
      · rfl
    rw [if_neg he]
    rcases hm : s.mode with _ | _ <;> dsimp only
    · by_cases hc : s.sell_th
          < (p - s.last_transaction_price) / s.last_transaction_price
          ∧ a < -s.slope_th
      · rw [if_pos hc, sell_all_spec, except_bind_ok]
        exact ⟨_, rfl, rfl, fun hf => by simp [hf] at he', fun _ => ⟨rfl, he'⟩⟩
      · rw [if_neg hc]
        exact ⟨_, rfl, rfl, fun hf => by simp [hf] at he', fun _ => ⟨rfl, he'⟩⟩
    · by_cases hc : (p - s.last_transaction_price) / s.last_transaction_price
          < s.buy_th ∧ s.slope_th < a
      · rw [if_pos hc, buy_all_spec, except_bind_ok]
        exact ⟨_, rfl, rfl, fun hf => by simp [hf] at he', fun _ => ⟨rfl, he'⟩⟩
      · rw [if_neg hc]
        exact ⟨_, rfl, rfl, fun hf => by simp [hf] at he', fun _ => ⟨rfl, he'⟩⟩

/-- Window evolution along a run of `SlopeEstimationAgent`, for
`memory_size ≥ 2`.  `obs` is the list of prices observed so far.
While fewer than `memory_size` prices have been observed the memory is
exactly the observation list, the flag is down and no trade has
happened; from `memory_size` observations on, the memory is exactly
the `memory_size` most recent observed prices. -/
lemma slope_run_window (api : CryptoAPI) :
    ∀ (inputs : List (ℚ × ℚ)) (s : SlopeAgentState) (obs : List ℚ),
      2 ≤ s.memory_size →
      ((s.enough_data_gathered = false ∧ s.memory = obs ∧
          obs.length < s.memory_size ∧ 1 ≤ obs.length) ∨
       (s.enough_data_gathered = true ∧
          s.memory = takeLast s.memory_size obs ∧
          s.memory.length = s.memory_size ∧ s.memory_size ≤ obs.length)) →
      ∃ s', SlopeEstimationAgent.run api inputs s = Except.ok s' ∧
        s'.memory_size = s.memory_size ∧
        ((s.enough_data_gathered = false ∧ s'.enough_data_gathered = false ∧
            s'.memory = obs ++ inputs.map Prod.fst ∧
            (obs ++ inputs.map Prod.fst).length < s.memory_size ∧
            s'.base = s.base ∧ s'.mode = s.mode ∧
            s'.last_transaction_price = s.last_transaction_price) ∨
         (s'.enough_data_gathered = true ∧
            s'.memory = takeLast s.memory_size (obs ++ inputs.map Prod.fst) ∧
            s'.memory.length = s.memory_size ∧
            s.memory_size ≤ (obs ++ inputs.map Prod.fst).length)) := by
  intro inputs
  induction inputs with
  | nil =>
    intro s obs h2 hphase
    refine ⟨s, rfl, rfl, ?_⟩
    rcases hphase with ⟨hef, hmem, hlt, hpos⟩ | ⟨het, hmem, hlen, hobs⟩
    · exact Or.inl ⟨hef, hef, by simpa using hmem, by simpa using hlt, rfl, rfl, rfl⟩
    · exact Or.inr ⟨het, by simpa using hmem, hlen, by simpa using hobs⟩
  | cons x rest ih =>
    intro s obs h2 hphase
    obtain ⟨s1, hstep, hsize, hfalse, htrue⟩ := slope_step_spec api x.1 x.2 s
    have hrun : SlopeEstimationAgent.run api (x :: rest) s
        = SlopeEstimationAgent.run api rest s1 := by
      rw [SlopeEstimationAgent.run, List.foldlM_cons, hstep, except_bind_ok]
      rfl
    have h2' : 2 ≤ s1.memory_size := by rw [hsize]; exact h2
    have hl : (obs ++ [x.1]) ++ rest.map Prod.fst = obs ++ (x :: rest).map Prod.fst := by
      simp
    rcases hphase with ⟨hef, hmem, hlt, hpos⟩ | ⟨het, hmem, hlen, hobs⟩
    · obtain ⟨h1mem, h1en, h1base, h1mode, h1ltp⟩ := hfalse hef
      rw [hmem] at h1mem h1en
      by_cases hN : obs.length + 1 < s.memory_size
      · have h1en' : s1.enough_data_gathered = false := by
          rw [h1en]
          simp
          omega
        obtain ⟨s', hrun', hsize', hconc⟩ := ih s1 (obs ++ [x.1]) h2'
          (Or.inl ⟨h1en', h1mem, by rw [hsize]; simpa using hN, by simp⟩)
        rw [hl, hsize] at hconc
        rw [h1base, h1mode, h1ltp] at hconc
        refine ⟨s', hrun.trans hrun', by rw [hsize', hsize], ?_⟩
        rcases hconc with ⟨-, a1, a2, a3, a4, a5, a6⟩ | hc2
        · exact Or.inl ⟨hef, a1, a2, a3, a4, a5, a6⟩
        · exact Or.inr hc2
      · have heqN : obs.length + 1 = s.memory_size := by omega
        have h1en' : s1.enough_data_gathered = true := by
          rw [h1en]
          simp
          omega
        have hlen1 : (obs ++ [x.1]).length = s.memory_size := by
          simp
          omega
        have htk : takeLast s.memory_size (obs ++ [x.1]) = obs ++ [x.1] := by
          rw [← hlen1, takeLast_of_length]
        obtain ⟨s', hrun', hsize', hconc⟩ := ih s1 (obs ++ [x.1]) h2'
          (Or.inr ⟨h1en', by rw [h1mem, hsize, htk], by rw [h1mem, hsize, hlen1],
            by rw [hsize, hlen1]⟩)
        rw [hl, hsize] at hconc
        refine ⟨s', hrun.trans hrun', by rw [hsize', hsize], ?_⟩
        rcases hconc with ⟨hbad, -⟩ | hc2
        · rw [h1en'] at hbad
          exact absurd hbad (by simp)
        · exact Or.inr hc2
    · obtain ⟨h1mem, h1en⟩ := htrue het
      have hN1 : 1 ≤ s.memory_size := by omega
      have htail : s.memory.tail ++ [x.1] = takeLast s.memory_size (obs ++ [x.1]) := by
        have hlast := takeLast_append_singleton s.memory_size hN1 obs x.1
          (by rw [← hmem]; exact hlen)
        rw [← hmem] at hlast
        exact hlast
      have h1len : s1.memory.length = s.memory_size := by
        rw [h1mem, List.length_append, List.length_tail]
        simp only [List.length_cons, List.length_nil]
        omega
      obtain ⟨s', hrun', hsize', hconc⟩ := ih s1 (obs ++ [x.1]) h2'
        (Or.inr ⟨h1en, by rw [h1mem, hsize]; exact htail, by rw [h1len, hsize],
          by rw [hsize]; simp; omega⟩)
      rw [hl, hsize] at hconc
      refine ⟨s', hrun.trans hrun', by rw [hsize', hsize], ?_⟩
      rcases hconc with ⟨hbad, -⟩ | hc2
      · rw [h1en] at hbad
        exact absurd hbad (by simp)
      · exact Or.inr hc2

/-- C8 counterexample: with `memory_size = 1` the window is NEVER
exactly the 1 most recent price once trading starts: `load_init_info`
already stores one sample and the first tick appends a second before
the flag flips, so the sliding window holds 2 samples forever.
Concretely, after `load_init_info` at price 10 and two ticks at prices
11 and 12, the memory has length 2, not `memory_size = 1`. -/
theorem claim_C8_counterexample :
    (SlopeEstimationAgent.run (CryptoAPI.ofRate (1/100)) [(11, 0), (12, 0)]
        (SlopeEstimationAgent.load_init_info 10
          (SlopeEstimationAgent.init (CryptoAgent.init ["BTC"] 100) "BTC"
            1000 1000 1000 1))).toOption.map (fun s => s.memory.length)
      = some 2 ∧ (2:ℕ) ≠ 1 := by
  constructor
  · norm_num [SlopeEstimationAgent.run, SlopeEstimationAgent.step,
      SlopeEstimationAgent.load_init_info, SlopeEstimationAgent.init,
      CryptoAgent.init, List.foldlM, Except.toOption, Bind.bind, Except.bind,
      Pure.pure, Except.pure]
  · decide

/-- C8 amended: for `memory_size = N ≥ 2` the claim holds: on every
tick before N price samples have been observed (the `load_init_info`
sample included) the agent only appends the current price — no trade,
no mode change, no transaction-price update — and on every tick
thereafter the memory is exactly the N most recent observed prices
(oldest dropped, newest appended) before the trade decision is
evaluated.  For `memory_size ≤ 1` the window instead stabilizes at 2
samples (see the counterexample). -/
theorem claim_C8_amended (api : CryptoAPI) (b0 : AgentState) (name : String)
    (sth bth slth p0 : ℚ) (N : ℕ) (inputs : List (ℚ × ℚ)) (hN : 2 ≤ N) :
    (inputs.length + 1 < N →
      (SlopeEstimationAgent.run api inputs
          (SlopeEstimationAgent.load_init_info p0
            (SlopeEstimationAgent.init b0 name sth bth slth N))).toOption.map
        (fun s' => (s'.memory, s'.enough_data_gathered, s'.base, s'.mode,
          s'.last_transaction_price))
        = some (p0 :: inputs.map Prod.fst, false, b0, SlopeMode.has_to_sell, p0)) ∧
    (N ≤ inputs.length + 1 →
      (SlopeEstimationAgent.run api inputs
          (SlopeEstimationAgent.load_init_info p0
            (SlopeEstimationAgent.init b0 name sth bth slth N))).toOption.map
        (fun s' => (s'.memory, s'.memory.length, s'.enough_data_gathered))
        = some (takeLast N (p0 :: inputs.map Prod.fst), N, true)) := by
  have hs0 : (SlopeEstimationAgent.load_init_info p0
      (SlopeEstimationAgent.init b0 name sth bth slth N)).memory_size = N := rfl
  obtain ⟨s', hrun, hsize, hconc⟩ := slope_run_window api inputs
    (SlopeEstimationAgent.load_init_info p0
      (SlopeEstimationAgent.init b0 name sth bth slth N)) [p0]
    (by rw [hs0]; exact hN)
    (Or.inl ⟨rfl, by simp [SlopeEstimationAgent.load_init_info,
      SlopeEstimationAgent.init], by rw [hs0]; simpa using hN, by simp⟩)
  rw [hs0] at hconc
  have hobs : ([p0] ++ inputs.map Prod.fst) = p0 :: inputs.map Prod.fst := by simp
  rw [hobs] at hconc
  constructor
  · intro hlt
    rcases hconc with ⟨-, h1, h2, -, h4, h5, h6⟩ | ⟨-, -, -, hge⟩
    · rw [hrun]
      simp only [Except.toOption, Option.map_some']
      rw [h1, h2, h4, h5, h6]
      rfl
    · exfalso
      rw [List.length_cons, List.length_map] at hge
      omega
  · intro hge
    rcases hconc with ⟨-, -, -, hlt, -, -, -⟩ | ⟨h1, h2, h3, -⟩
    · exfalso
      rw [List.length_cons, List.length_map] at hlt
      omega
    · rw [hrun]
      simp only [Except.toOption, Option.map_some']
      rw [h1, h3, h2]

/-- C8 amended witness: with `memory_size = 2`, after `load_init_info`
at price 10 and no tick the memory is `[10]` with the flag down and
the base state untouched; after ticks at prices 11 and 12 the memory
is the last 2 observed prices with the flag up. -/
theorem claim_C8_amended_witness :
    (SlopeEstimationAgent.run (CryptoAPI.ofRate (1/100)) []
        (SlopeEstimationAgent.load_init_info 10
          (SlopeEstimationAgent.init (CryptoAgent.init ["BTC"] 100) "BTC"
            (1/10) (1/10) (1/2) 2))).toOption.map
      (fun s' => (s'.memory, s'.enough_data_gathered, s'.base, s'.mode,
        s'.last_transaction_price))
      = some ((10:ℚ) :: List.map Prod.fst ([] : List (ℚ × ℚ)), false,
          CryptoAgent.init ["BTC"] 100, SlopeMode.has_to_sell, 10) ∧
    (SlopeEstimationAgent.run (CryptoAPI.ofRate (1/100)) [(11, 0), (12, 0)]
        (SlopeEstimationAgent.load_init_info 10
          (SlopeEstimationAgent.init (CryptoAgent.init ["BTC"] 100) "BTC"
            (1/10) (1/10) (1/2) 2))).toOption.map
      (fun s' => (s'.memory, s'.memory.length, s'.enough_data_gathered))
      = some (takeLast 2 ((10:ℚ) :: List.map Prod.fst [((11:ℚ), (0:ℚ)), (12, 0)]),
          2, true) :=
  ⟨(claim_C8_amended (CryptoAPI.ofRate (1/100)) (CryptoAgent.init ["BTC"] 100)
      "BTC" (1/10) (1/10) (1/2) 10 2 [] (by norm_num)).1 (by norm_num),
   (claim_C8_amended (CryptoAPI.ofRate (1/100)) (CryptoAgent.init ["BTC"] 100)
      "BTC" (1/10) (1/10) (1/2) 10 2 [((11:ℚ), (0:ℚ)), (12, 0)] (by norm_num)).2
      (by norm_num)⟩

/-- C9: once the window is full, with
`percent_diff = (current_price - last_transaction_price) / last_transaction_price`
and `angle_lr` the degree angle of the regression slope over the
window: in mode `has_to_sell` the agent sells ALL its holdings of the
asset exactly when `percent_diff > sell_th` and `angle_lr < -slope_th`
(switching to `has_to_buy` and recording the transaction price); in
mode `has_to_buy` it buys with ALL its cash exactly when
`percent_diff < buy_th` and `angle_lr > slope_th` (switching to
`has_to_sell` and recording the transaction price); when the
condition fails, no trade, no mode change and no transaction-price
update happen; the same holds on warm-up ticks; and the initial mode
set by the constructor is `has_to_sell`. -/
theorem claim_C9_slope_decision (api : CryptoAPI) (current_price angle_lr : ℚ)
    (s : SlopeAgentState) :
    (s.enough_data_gathered = true → s.mode = SlopeMode.has_to_sell →
      ((s.sell_th < (current_price - s.last_transaction_price)
            / s.last_transaction_price ∧ angle_lr < -s.slope_th) →
        SlopeEstimationAgent.step api current_price angle_lr s
          = Except.ok { s with
              base := { s.base with
                available_money := s.base.available_money
                  + api.sell_crypto_to_api
                      (s.base.available_crypto_l s.name_of_crypto) current_price
                available_crypto_l := fun n =>
                  if n = s.name_of_crypto then 0 else s.base.available_crypto_l n }
              memory := s.memory.tail ++ [current_price]
              last_transaction_price := current_price
              mode := SlopeMode.has_to_buy }) ∧
      (¬ (s.sell_th < (current_price - s.last_transaction_price)
            / s.last_transaction_price ∧ angle_lr < -s.slope_th) →
        SlopeEstimationAgent.step api current_price angle_lr s
          = Except.ok { s with memory := s.memory.tail ++ [current_price] })) ∧
    (s.enough_data_gathered = true → s.mode = SlopeMode.has_to_buy →
      (((current_price - s.last_transaction_price) / s.last_transaction_price
            < s.buy_th ∧ s.slope_th < angle_lr) →
        SlopeEstimationAgent.step api current_price angle_lr s
          = Except.ok { s with
              base := { s.base with
                available_money := 0
                available_crypto_l := fun n =>
                  if n = s.name_of_crypto then
                    s.base.available_crypto_l n
                      + api.buy_crypto_from_api s.base.available_money current_price
                  else s.base.available_crypto_l n }
              memory := s.memory.tail ++ [current_price]
              last_transaction_price := current_price
              mode := SlopeMode.has_to_sell }) ∧
      (¬ ((current_price - s.last_transaction_price) / s.last_transaction_price
            < s.buy_th ∧ s.slope_th < angle_lr) →
        SlopeEstimationAgent.step api current_price angle_lr s
          = Except.ok { s with memory := s.memory.tail ++ [current_price] })) ∧
    (s.enough_data_gathered = false →
      SlopeEstimationAgent.step api current_price angle_lr s
        = Except.ok { s with
            memory := s.memory ++ [current_price]
            enough_data_gathered :=
              decide (s.memory_size ≤ (s.memory ++ [current_price]).length) }) ∧
    (∀ (b : AgentState) (nm : String) (t1 t2 t3 : ℚ) (N : ℕ),
      (SlopeEstimationAgent.init b nm t1 t2 t3 N).mode = SlopeMode.has_to_sell) := by
  refine ⟨?_, ?_, ?_, fun b nm t1 t2 t3 N => rfl⟩
  · intro he hmode
    constructor
    · intro hc
      rw [SlopeEstimationAgent.step, if_neg (by simp [he]), hmode]
      dsimp only
      rw [if_pos hc, sell_all_spec, except_bind_ok]
      refine congrArg Except.ok ?_
      refine SlopeAgentState.ext ?_ rfl rfl rfl rfl rfl rfl rfl rfl rfl
      refine AgentState.ext rfl ?_ rfl rfl
      funext n
      by_cases hn : n = s.name_of_crypto
      · simp [hn]
      · simp [hn]
    · intro hc
      rw [SlopeEstimationAgent.step, if_neg (by simp [he]), hmode]
      dsimp only
      rw [if_neg hc]
  · intro he hmode
    constructor
    · intro hc
      rw [SlopeEstimationAgent.step, if_neg (by simp [he]), hmode]
      dsimp only
      rw [if_pos hc, buy_all_spec, except_bind_ok]
      refine congrArg Except.ok ?_
      refine SlopeAgentState.ext ?_ rfl rfl rfl rfl rfl rfl rfl rfl rfl
      refine AgentState.ext ?_ rfl rfl rfl
      simp
    · intro hc
      rw [SlopeEstimationAgent.step, if_neg (by simp [he]), hmode]
      dsimp only
      rw [if_neg hc]
  · intro he
    rw [SlopeEstimationAgent.step, if_pos he]

/-- C9 witness: a full-window agent in mode `has_to_sell` (window
`[10, 11]`, last transaction price 10, `sell_th = 1/10`,
`slope_th = 1/2`) at price 12 with regression angle −1 satisfies both
trigger conditions and sells everything, switching to `has_to_buy`
and recording 12. -/
theorem claim_C9_slope_decision_witness :
    SlopeEstimationAgent.step (CryptoAPI.ofRate (1/100)) 12 (-1)
        { base := { available_money := 5
                    available_crypto_l := fun n => if n = "BTC" then 2 else 0
                    earned_money := 0
                    crypto_name_l := ["BTC"] }
          name_of_crypto := "BTC"
          sell_th := 1/10
          buy_th := 1/10
          slope_th := 1/2
          last_transaction_price := 10
          enough_data_gathered := true
          memory := [10, 11]
          mode := SlopeMode.has_to_sell
          memory_size := 2 }
      = Except.ok
        { base := { available_money := 5
                      + (CryptoAPI.ofRate (1/100)).sell_crypto_to_api
                          (if "BTC" = "BTC" then (2:ℚ) else 0) 12,
                    available_crypto_l := fun n =>
                      if n = "BTC" then 0 else if n = "BTC" then 2 else 0,
                    earned_money := 0,
                    crypto_name_l := ["BTC"] }
          name_of_crypto := "BTC"
          sell_th := 1/10
          buy_th := 1/10
          slope_th := 1/2
          last_transaction_price := 12
          enough_data_gathered := true
          memory := ([(10:ℚ), 11]).tail ++ [12]
          mode := SlopeMode.has_to_buy
          memory_size := 2 } :=
  ((claim_C9_slope_decision (CryptoAPI.ofRate (1/100)) 12 (-1)
      { base := { available_money := 5
                  available_crypto_l := fun n => if n = "BTC" then 2 else 0
                  earned_money := 0
                  crypto_name_l := ["BTC"] }
        name_of_crypto := "BTC"
        sell_th := 1/10
        buy_th := 1/10
        slope_th := 1/2
        last_transaction_price := 10
        enough_data_gathered := true
        memory := [10, 11]
        mode := SlopeMode.has_to_sell
        memory_size := 2 }).1 rfl rfl).1 (by norm_num)

/-- C10 witness: a `WaitIncreaseAgent` holding 2 BTC and 5 cash with
reference price 10 and threshold 1/10, at price 12 (percent difference
1/5): it sells the 2 BTC, rebuys with all proceeds plus cash, ends
with 0 cash, and records reference price 12. -/
theorem claim_C10_wait_increase_step_witness :
    WaitIncreaseAgent.step (CryptoAPI.ofRate (1/100)) 12
        { base := { available_money := 5
                    available_crypto_l := fun n => if n = "BTC" then 2 else 0
                    earned_money := 0
                    crypto_name_l := ["BTC"] }
          name_of_crypto := "BTC"
          sell_th := 1/10
          last_buy_price := 10 }
      = Except.ok
        { base := { available_money := 0
                    available_crypto_l := fun n =>
                      if n = "BTC" then
                        (CryptoAPI.ofRate (1/100)).buy_crypto_from_api
                          (5 + (CryptoAPI.ofRate (1/100)).sell_crypto_to_api
                            (if "BTC" = "BTC" then (2:ℚ) else 0) 12) 12
                      else if n = "BTC" then 2 else 0
                    earned_money := 0
                    crypto_name_l := ["BTC"] }
          name_of_crypto := "BTC"
          sell_th := 1/10
          last_buy_price := 12 } :=
  (claim_C10_wait_increase_step (CryptoAPI.ofRate (1/100)) 12
      { base := { available_money := 5
                  available_crypto_l := fun n => if n = "BTC" then 2 else 0
                  earned_money := 0
                  crypto_name_l := ["BTC"] }
        name_of_crypto := "BTC"
        sell_th := 1/10
        last_buy_price := 10 }).1 (by norm_num)

end Crypto
